import Mathlib

/-!
# Verification of the MySchedule Schedule Conflict & Selection Engine

A shallow embedding, in Lean 4, of the core of the `myschedule` repository:

* `myschedule/conflicts.py` — `_time_to_minutes`, `_overlaps`, `find_conflicts`;
* `myschedule/storage.py` — `load_selected_course_ids`, `save_selected_course_ids`;
* `myschedule/cli.py` — `_build_indexes`, `_cmd_add`, `_selected_events`;
* `myschedule/interactive.py` — `build_indexes`, `_selected_events`,
  `_conflicts_if_added`, `_flow_timetable_week`.

Python dict-shaped event/course records are embedded as structures whose
fields model the keys the code actually reads; Python `str` primitives that
the code relies on (`str.strip`, `str.upper`, `str.split`, `int(...)`,
string comparison, `sorted`) are embedded explicitly over `List Char` so
that every definition is executable by kernel reduction.  File-system and
JSON-decoding effects of the storage layer are embedded as an explicit
`ReadResult` value describing what the read of the backing file produced.
All functions are total: Python exception control flow (`try`/`except`)
becomes `Option`/case analysis, so totality of the Lean functions witnesses
the "never raises" parts of the specification.
-/

namespace MySchedule

/-! ## Python string primitives -/

/-- The whitespace characters stripped by Python `str.strip()` (ASCII part:
space, tab, linefeed, carriage return, vertical tab, form feed). -/
def isPySpace (c : Char) : Bool :=
  c.toNat = 32 || c.toNat = 9 || c.toNat = 10 || c.toNat = 13 ||
  c.toNat = 11 || c.toNat = 12

/-- ASCII upper-casing of one character, as Python `str.upper()` acts on
ASCII input (the only alphabet the repository's identifiers use). -/
def pyUpperChar (c : Char) : Char :=
  if 97 ≤ c.toNat ∧ c.toNat ≤ 122 then Char.ofNat (c.toNat - 32) else c

/-- Python `s.upper()`. -/
def pyUpper (s : String) : String := ⟨s.data.map pyUpperChar⟩

/-- Strip trailing, then leading, whitespace from a character list.
Both ends are independent, so the order of the two passes is irrelevant;
this models Python `str.strip()`. -/
def stripChars (l : List Char) : List Char :=
  List.dropWhile isPySpace ((List.dropWhile isPySpace l.reverse).reverse)

/-- Python `s.strip()`. -/
def pyStrip (s : String) : String := ⟨stripChars s.data⟩

/-- Python `s.split(sep)` for a one-character separator `sep`
(`"".split(":") = [""]`, `":".split(":") = ["", ""]`). -/
def splitOnChar (sep : Char) : List Char → List (List Char)
  | [] => [[]]
  | c :: rest =>
    if c = sep then [] :: splitOnChar sep rest
    else
      match splitOnChar sep rest with
      | [] => [[c]]
      | h :: t => (c :: h) :: t

/-- Lexicographic strict comparison of two character lists by code point;
Python `str.__lt__`. -/
def strLtB : List Char → List Char → Bool
  | [], [] => false
  | [], _ :: _ => true
  | _ :: _, [] => false
  | a :: as, b :: bs =>
    if a.toNat < b.toNat then true
    else if a = b then strLtB as bs
    else false

/-- Python `a < b` on strings. -/
def pyStrLtB (a b : String) : Bool := strLtB a.data b.data

/-- Python `a <= b` on strings (total order: `a ≤ b ↔ ¬ b < a`). -/
def pyStrLeB (a b : String) : Bool := ! pyStrLtB b a

/-- Python `a <= b` on strings, as a proposition. -/
def pyStrLe (a b : String) : Prop := pyStrLeB a b = true

instance : DecidableRel pyStrLe := fun a b =>
  decidable_of_iff (pyStrLeB a b = true) Iff.rfl

/-- Python `sorted` on a list of strings.  Python uses a stable sort with
respect to `<`; on a decidable total order every stable sort computes
the same list, so a stable insertion sort is a faithful embedding. -/
def pySortStrings (l : List String) : List String :=
  l.insertionSort pyStrLe

/-- One decimal digit group accumulator for Python `int(...)`: digits with
single underscores allowed only between two digits. The head of the input
has already been checked to be a digit. -/
def pyIntDigits : List Char → Nat → Option Nat
  | [], acc => some acc
  | '_' :: c :: rest, acc =>
    if c.isDigit then pyIntDigits rest (acc * 10 + (c.toNat - 48)) else none
  | '_' :: [], _ => none
  | c :: rest, acc =>
    if c.isDigit then pyIntDigits rest (acc * 10 + (c.toNat - 48)) else none

/-- Decimal digit run; `none` when empty or not starting with a digit. -/
def pyIntBody (l : List Char) : Option Nat :=
  match l with
  | [] => none
  | c :: _ => if c.isDigit then pyIntDigits l 0 else none

/-- Python `int(s)` on a decimal string: surrounding whitespace and one
optional sign are accepted; raises (here: `none`) otherwise. -/
def pyInt? (s : String) : Option Int :=
  match stripChars s.data with
  | '+' :: rest => (pyIntBody rest).map Int.ofNat
  | '-' :: rest => (pyIntBody rest).map (fun n => -(Int.ofNat n : Int))
  | rest => (pyIntBody rest).map Int.ofNat

/-! ## Conflict engine (`myschedule/conflicts.py`) -/

/-- `_time_to_minutes(hhmm)`: convert `"HH:MM"` into minutes since
midnight.  The Python function raises `ValueError` when the format or the
time values are invalid; here that is `none`. -/
def time_to_minutes (hhmm : String) : Option Int :=
  match splitOnChar ':' (pyStrip hhmm).data with
  | [p0, p1] => do
    let h ← pyInt? ⟨p0⟩
    let m ← pyInt? ⟨p1⟩
    if 0 ≤ h ∧ h ≤ 23 ∧ 0 ≤ m ∧ m ≤ 59 then some (h * 60 + m) else none
  | _ => none

/-- `_overlaps(a_start, a_end, b_start, b_end)`: two time intervals overlap
(`end == start` is allowed, no conflict). -/
def overlaps (a_start a_end b_start b_end : Int) : Bool :=
  a_start < b_end && a_end > b_start

/-- An event record: the dict keys the conflict/view code reads.  `none`
models a missing key; `ev.get(k, "")`/`_safe_str(ev.get(k))` both turn a
missing key into `""`. -/
structure Event where
  course_id : Option String := none
  date : Option String := none
  start : Option String := none
  «end» : Option String := none
deriving DecidableEq

/-- `str(ev.get(key, ""))` / `_safe_str(ev.get(key))` for string fields. -/
def getStr (o : Option String) : String := o.getD ""

/-- One entry of the pre-parsed list `parsed` in `find_conflicts`:
the date string, start/end in minutes, and the originating record (`ev`
is polymorphic so that the same scan can also be run with the record
tagged by its input position). -/
structure PEnt (α : Type) where
  date : String
  startM : Int
  endM : Int
  ev : α
deriving DecidableEq

/-- The robustness filter of `find_conflicts` applied to one event:
`none` when the date/start/end field is missing or empty after stripping,
when a time string fails to parse, or when `end ≤ start`. -/
def parseEvent (ev : Event) : Option (String × Int × Int) :=
  let date := pyStrip (getStr ev.date)
  let start_s := pyStrip (getStr ev.start)
  let end_s := pyStrip (getStr ev.«end»)
  if date = "" ∨ start_s = "" ∨ end_s = "" then none
  else
    match time_to_minutes start_s, time_to_minutes end_s with
    | some s, some e => if e ≤ s then none else some (date, s, e)
    | _, _ => none

/-- The list `parsed` built by the first loop of `find_conflicts`. -/
def parseEvents (events : List Event) : List (PEnt Event) :=
  events.filterMap fun ev =>
    (parseEvent ev).map fun t => ⟨t.1, t.2.1, t.2.2, ev⟩

/-- The `i < j` double loop of `find_conflicts` over the pre-parsed list:
for each entry, pair it with every later entry on the same date whose
interval overlaps. -/
def conflictScan {α : Type} : List (PEnt α) → List (PEnt α × PEnt α)
  | [] => []
  | x :: rest =>
    (rest.filterMap fun y =>
      if x.date = y.date ∧ overlaps x.startM x.endM y.startM y.endM
      then some (x, y) else none)
    ++ conflictScan rest

/-- `find_conflicts(events)`: overlapping event pairs `(ev1, ev2)`, each
pair once with `ev1` before `ev2` in the input. -/
def find_conflicts (events : List Event) : List (Event × Event) :=
  (conflictScan (parseEvents events)).map fun p => (p.1.ev, p.2.ev)

/-- `parsed` with each entry tagged by the position of its event in the
input list (the tag is a verification artifact; the scan ignores it). -/
def parseEventsIdx (events : List Event) : List (PEnt (Nat × Event)) :=
  events.enum.filterMap fun ie =>
    (parseEvent ie.2).map fun t => ⟨t.1, t.2.1, t.2.2, (ie.1, ie.2)⟩

/-- `find_conflicts` with every reported event tagged by its input
position. -/
def findConflictsIdx (events : List Event) :
    List ((Nat × Event) × (Nat × Event)) :=
  (conflictScan (parseEventsIdx events)).map fun p => (p.1.ev, p.2.ev)

/-! ## Selection store (`myschedule/storage.py`) -/

/-- JSON values, as produced by Python `json.loads`. -/
inductive Json
  | null
  | bool (b : Bool)
  | num (n : Int)
  | str (s : String)
  | arr (xs : List Json)
  | obj (kvs : List (String × Json))

/-- What reading and JSON-decoding the backing file produced:
the file is absent, reading raised `OSError`/`UnicodeDecodeError`,
decoding raised `JSONDecodeError`, or decoding succeeded with a value. -/
inductive ReadResult
  | missing
  | readError
  | badJson
  | parsed (j : Json)

/-- Python dict lookup on a decoded JSON object (`json.loads` keeps the
last occurrence of a duplicated key). -/
def jsonLookup (k : String) (kvs : List (String × Json)) : Option Json :=
  kvs.foldl (fun acc kv => if kv.1 = k then some kv.2 else acc) none

/-- The normalization loop of `load_selected_course_ids` over the
`selected_course_ids` value: keep only strings, `strip().upper()` them,
drop the empty ones, collect into a set.  Any non-list value yields the
empty set. -/
def loadIdsStep (acc : Finset String) (x : Json) : Finset String :=
  match x with
  | .str s =>
    let cid := pyUpper (pyStrip s)
    if cid ≠ "" then insert cid acc else acc
  | _ => acc

def loadIdsArr (v : Json) : Finset String :=
  match v with
  | .arr xs => xs.foldl loadIdsStep ∅
  | _ => ∅

/-- `load_selected_course_ids` applied to a successfully decoded JSON
value: `data.get("selected_course_ids", [])` requires `data` to be a dict
(anything else raises `AttributeError`, caught by the function, giving the
empty set), with `[]` as the default for a missing key. -/
def loadFromJson (j : Json) : Finset String :=
  match j with
  | .obj kvs => loadIdsArr ((jsonLookup "selected_course_ids" kvs).getD (.arr []))
  | _ => ∅

/-- `load_selected_course_ids(path)`: the empty set on a missing file or
on any caught read/decode error, otherwise the normalized ID set. -/
def load_selected_course_ids (r : ReadResult) : Finset String :=
  match r with
  | .missing => ∅
  | .readError => ∅
  | .badJson => ∅
  | .parsed j => loadFromJson j

/-- The list `norm` computed by `save_selected_course_ids`:
`sorted({str(x).strip().upper() for x in ids if str(x).strip()})`.
The Python set comprehension deduplicates the normalized IDs; `sorted` of
that set is the unique sorted duplicate-free list of its elements, here
computed as a stable sort of `dedup`. -/
def save_selected_course_ids (ids : List String) : List String :=
  pySortStrings
    (((ids.filter fun x => pyStrip x ≠ "").map fun x => pyUpper (pyStrip x)).dedup)

/-- The JSON record `{"selected_course_ids": norm}` that
`save_selected_course_ids` writes to the backing file. -/
def savedPayload (ids : List String) : Json :=
  .obj [("selected_course_ids", .arr ((save_selected_course_ids ids).map .str))]

/-- The set of normalized IDs of an input list (trim, upper-case,
drop IDs that are empty after trimming). -/
def normSelected (ids : List String) : Finset String :=
  ((ids.filter fun x => pyStrip x ≠ "").map fun x => pyUpper (pyStrip x)).toFinset

/-- `load_selected_course_ids` as remembered in iteration order with
first-occurrence deduplication: the model of the in-memory Python `set`
as an iterable.  Python iterates a `set` in an unspecified order;
`save_selected_course_ids` sorts a deduplicated normalization of its
input, so its output does not depend on that order, and the model fixes
first-insertion order. -/
def loadIdsList (r : ReadResult) : List String :=
  match r with
  | .parsed (.obj kvs) =>
    match (jsonLookup "selected_course_ids" kvs).getD (.arr []) with
    | .arr xs =>
      xs.foldl (fun acc x =>
        match x with
        | .str s =>
          let cid := pyUpper (pyStrip s)
          if cid ≠ "" ∧ cid ∉ acc then acc ++ [cid] else acc
        | _ => acc) []
    | _ => []
  | _ => []

/-- `_cmd_add` in `myschedule/cli.py`, restricted to its effect on the
persistent store: normalize the argument, reject an empty ID (no state
change), return unchanged when the ID is already selected, otherwise add
it and save. -/
def cmd_add (course_id_arg : String) (store : ReadResult) : ReadResult :=
  if pyUpper (pyStrip course_id_arg) = "" then store
  else if pyUpper (pyStrip course_id_arg) ∈ load_selected_course_ids store then
    store
  else
    .parsed (savedPayload (loadIdsList store ++ [pyUpper (pyStrip course_id_arg)]))

/-! ## Catalog index (`_build_indexes` / `build_indexes`) -/

/-- A course record: the dict keys the index build reads (`title` stands
for the rest of the record, so that two course records with the same
identifier can differ). -/
structure Course where
  course_id : Option String := none
  title : Option String := none
deriving DecidableEq

/-- `str(r.get("course_id", "")).strip().upper()` /
`_safe_str(r.get("course_id")).strip().upper()`: identifier normalization
applied before indexing. -/
def normId (o : Option String) : String := pyUpper (pyStrip (getStr o))

/-- The `course_by_id` dict built by `_build_indexes`/`build_indexes`:
one pass over the course list, storing each course under its normalized
identifier when that identifier is nonempty (a later record with the same
identifier overwrites an earlier one). -/
def build_course_by_id (courses : List Course) : String → Option Course :=
  courses.foldl
    (fun m c =>
      if normId c.course_id ≠ "" then
        fun k => if k = normId c.course_id then some c else m k
      else m)
    (fun _ => none)

/-- The `events_by_course_id` defaultdict built by
`_build_indexes`/`build_indexes`: one pass over the event list, appending
each event to the bucket of its normalized identifier when nonempty. -/
def build_events_by_course_id (events : List Event) : String → List Event :=
  events.foldl
    (fun m e =>
      if normId e.course_id ≠ "" then
        fun k => if k = normId e.course_id then m k ++ [e] else m k
      else m)
    (fun _ => [])

/-! ## Selected-events views (`_selected_events`) -/

/-- The Python sort key `(date, start)` comparison between two events, as
the non-strict total preorder `¬ (keyB < keyA)` that a stable Python sort
realizes (tuples of strings compare lexicographically). -/
def evKeyLe (a b : Event) : Prop :=
  pyStrLtB (getStr a.date) (getStr b.date) = true ∨
  (getStr a.date = getStr b.date ∧ pyStrLe (getStr a.start) (getStr b.start))

instance : DecidableRel evKeyLe := fun a b =>
  decidable_of_iff (pyStrLtB (getStr a.date) (getStr b.date) = true ∨
    (getStr a.date = getStr b.date ∧ pyStrLe (getStr a.start) (getStr b.start)))
    Iff.rfl

/-- `_selected_events` in `myschedule/cli.py`: concatenate the buckets of
the selected course ids in sorted id order.  (No further sorting.)
The Python `set` argument is modelled by a list of its elements. -/
def cli_selected_events (selected_ids : List String)
    (events_by_course_id : String → List Event) : List Event :=
  ((pySortStrings selected_ids).map events_by_course_id).flatten

/-- `_selected_events` in `myschedule/interactive.py`: the same
concatenation, then sorted in place by the key `(date, start)`
(Python `list.sort` is stable; a stable insertion sort computes the same
list). -/
def interactive_selected_events (selected_ids : List String)
    (events_by_course_id : String → List Event) : List Event :=
  (((pySortStrings selected_ids).map events_by_course_id).flatten).insertionSort
    evKeyLe

/-! ## Candidate-add preview (`_conflicts_if_added`) -/

/-- `_conflicts_if_added(candidate_cid, selected_ids, events_by_course_id)`
in `myschedule/interactive.py`: run `find_conflicts` on the selected
events followed by the candidate's events, then keep only the pairs with
one side in the candidate course and the other in a selected course,
normalized candidate-first.  The Python `set` `selected_ids` is modelled
by a list of its elements (its iteration order). -/
def conflicts_if_added (candidate_cid : String) (selected_ids : List String)
    (events_by_course_id : String → List Event) : List (Event × Event) :=
  if events_by_course_id candidate_cid = [] ∨ selected_ids = [] then []
  else
    (find_conflicts ((selected_ids.map events_by_course_id).flatten ++
        events_by_course_id candidate_cid)).filterMap
      fun p =>
        if normId p.1.course_id = candidate_cid ∧
            normId p.2.course_id ∈ selected_ids then some (p.1, p.2)
        else if normId p.2.course_id = candidate_cid ∧
            normId p.1.course_id ∈ selected_ids then some (p.2, p.1)
        else none

/-- The specification's description of the candidate-add preview, stated
independently of the code path: all conflict pairs of
`find_conflicts(selected_events + candidate_events)` in which exactly one
event belongs to the candidate course and the other belongs to a selected
course, candidate's event first; no early return. -/
def candidate_preview_spec (candidate_cid : String) (selected_ids : List String)
    (events_by_course_id : String → List Event) : List (Event × Event) :=
  (find_conflicts ((selected_ids.map events_by_course_id).flatten ++
      events_by_course_id candidate_cid)).filterMap
    fun p =>
      if normId p.1.course_id = candidate_cid ∧
          normId p.2.course_id ≠ candidate_cid ∧
          normId p.2.course_id ∈ selected_ids then some (p.1, p.2)
      else if normId p.2.course_id = candidate_cid ∧
          normId p.1.course_id ≠ candidate_cid ∧
          normId p.1.course_id ∈ selected_ids then some (p.2, p.1)
      else none

/-! ## Dates and the weekly timetable (`_flow_timetable_week`) -/

/-- A `datetime.date` value (the constructor's validity ranges are
enforced by `parse_date`). -/
structure PyDate where
  year : Nat
  month : Nat
  day : Nat
deriving DecidableEq

/-- Gregorian leap year. -/
def isLeap (y : Nat) : Bool := y % 4 = 0 && (y % 100 ≠ 0 || y % 400 = 0)

/-- Number of days of month `m` of year `y` (0 for an invalid month). -/
def daysInMonth (y m : Nat) : Nat :=
  if m = 1 ∨ m = 3 ∨ m = 5 ∨ m = 7 ∨ m = 8 ∨ m = 10 ∨ m = 12 then 31
  else if m = 4 ∨ m = 6 ∨ m = 9 ∨ m = 11 then 30
  else if m = 2 then if isLeap y then 29 else 28
  else 0

/-- Value of a nonempty all-digit character group. -/
def digitsVal? (l : List Char) : Option Nat :=
  if l ≠ [] ∧ l.all Char.isDigit then
    some (l.foldl (fun acc c => acc * 10 + (c.toNat - 48)) 0)
  else none

/-- The local helper `parse_date` of `_flow_timetable_week`:
`datetime.strptime(s, "%Y-%m-%d").date()` with every exception mapped to
`None`.  `%Y` matches exactly four digits, `%m` and `%d` one or two; the
`datetime` constructor then validates year 1–9999, month 1–12 and the day
against the month length. -/
def parse_date (s : String) : Option PyDate :=
  match splitOnChar '-' s.data with
  | [ys, ms, ds] => do
    let y ← if ys.length = 4 then digitsVal? ys else none
    let m ← if ms.length = 1 ∨ ms.length = 2 then digitsVal? ms else none
    let d ← if ds.length = 1 ∨ ds.length = 2 then digitsVal? ds else none
    if 1 ≤ y ∧ y ≤ 9999 ∧ 1 ≤ m ∧ m ≤ 12 ∧ 1 ≤ d ∧ d ≤ daysInMonth y m
    then some ⟨y, m, d⟩ else none
  | _ => none

/-- `date.weekday()`: Monday = 0 … Sunday = 6, computed by Zeller's
congruence on the proleptic Gregorian calendar (the calendar `datetime`
uses). -/
def pyWeekday (dt : PyDate) : Nat :=
  let y := if dt.month ≤ 2 then dt.year - 1 else dt.year
  let m := if dt.month ≤ 2 then dt.month + 12 else dt.month
  let K := y % 100
  let J := y / 100
  let h := (dt.day + (13 * (m + 1)) / 5 + K + K / 4 + J / 4 + 5 * J) % 7
  (h + 5) % 7

/-- The weekday name table of `weekday_short` in `_flow_timetable_week`. -/
def weekdayShortNames : List String :=
  ["Mon", "Tue", "Wed", "Thu", "Fri", "Sat", "Sun"]

/-- `weekday_short(d)`: `names[d.weekday()]`. -/
def weekday_short (d : PyDate) : String :=
  weekdayShortNames.getD (pyWeekday d) ""

/-- Ordinal day of the year, 1-based. -/
def dayOfYear (dt : PyDate) : Nat :=
  (List.range (dt.month - 1)).foldl
    (fun acc i => acc + daysInMonth dt.year (i + 1)) 0 + dt.day

/-- Number of ISO weeks in year `y`: 53 when Jan 1 falls on a Thursday,
or on a Wednesday of a leap year; else 52. -/
def isoWeeksInYear (y : Nat) : Nat :=
  if pyWeekday ⟨y, 1, 1⟩ = 3 ∨ (isLeap y ∧ pyWeekday ⟨y, 1, 1⟩ = 2) then 53
  else 52

/-- `week_key(d)`: `d.isocalendar()`'s `(year, week)` pair (ISO 8601:
weeks run Monday–Sunday; week 1 holds the year's first Thursday). -/
def week_key (dt : PyDate) : Nat × Nat :=
  let wd := pyWeekday dt + 1
  let w := (dayOfYear dt + 10 - wd) / 7
  if w = 0 then (dt.year - 1, isoWeeksInYear (dt.year - 1))
  else if w > isoWeeksInYear dt.year then (dt.year + 1, 1)
  else (dt.year, w)

/-- Step 3 of `_flow_timetable_week`: the events of the selected ISO week
(events with an unparseable date never match). -/
def weekEventsFor (events : List Event) (y w : Nat) : List Event :=
  events.filter fun ev =>
    match parse_date (getStr ev.date) with
    | some dd => decide (week_key dd = (y, w))
    | none => false

/-- The six weekday columns of the timetable grid. -/
def bucketDays : List String := ["Mon", "Tue", "Wed", "Thu", "Fri", "Sat"]

/-- Step 5 of `_flow_timetable_week`: bucket the week's events (sorted by
`(date, start)`) by short weekday name; an event whose date does not
parse, or whose weekday name is not one of the six columns, is skipped. -/
def timetableBuckets (week_events : List Event) : String → List Event :=
  (week_events.insertionSort evKeyLe).foldl
    (fun m ev =>
      match parse_date (getStr ev.date) with
      | none => m
      | some dd =>
        if weekday_short dd ∈ bucketDays then
          fun k => if k = weekday_short dd then m k ++ [ev] else m k
        else m)
    (fun _ => [])

/-! ## Concrete records used by the witnesses -/

/-- A valid event, 10:00–11:00. -/
def wEv1 : Event :=
  { course_id := some "C1", date := some "2025-01-01",
    start := some "10:00", «end» := some "11:00" }

/-- A valid event, 10:30–12:00, same date as `wEv1`. -/
def wEv2 : Event :=
  { course_id := some "C2", date := some "2025-01-01",
    start := some "10:30", «end» := some "12:00" }

/-- An invalid event (missing `end`), rejected by the robustness filter. -/
def wBadEv : Event :=
  { course_id := some "C3", date := some "2025-01-01",
    start := some "10:00", «end» := none }

/-- The store used by the `cmd_add` witness: `FS1` already selected. -/
def wStore : ReadResult := .parsed (savedPayload ["FS1"])

/-- Candidate course `X`'s only event, overlapping `wEvY`. -/
def wEvX : Event :=
  { course_id := some "X", date := some "2025-01-01",
    start := some "10:00", «end» := some "11:00" }

/-- Selected course `Y`'s only event. -/
def wEvY : Event :=
  { course_id := some "Y", date := some "2025-01-01",
    start := some "10:30", «end» := some "12:00" }

/-- The index used by the candidate-add preview witness. -/
def wEbcXY : String → List Event := fun cid =>
  if cid = "X" then [wEvX] else if cid = "Y" then [wEvY] else []

/-- Course `A`'s event: the later date. -/
def wEvA : Event :=
  { course_id := some "A", date := some "2025-01-02",
    start := some "10:00", «end» := some "11:00" }

/-- Course `B`'s event: the earlier date. -/
def wEvB : Event :=
  { course_id := some "B", date := some "2025-01-01",
    start := some "10:00", «end» := some "11:00" }

/-- The index used by the selected-events counterexample: in sorted
course-id order, `A`'s later-dated event comes first. -/
def wEbcAB : String → List Event := fun cid =>
  if cid = "A" then [wEvA] else if cid = "B" then [wEvB] else []

/-- An event dated 2025-10-12, a Sunday. -/
def wSunEv : Event :=
  { course_id := some "C", date := some "2025-10-12",
    start := some "10:00", «end» := some "11:00" }

/-- A course whose raw identifier normalizes to `FS1`. -/
def wC1 : Course := { course_id := some "fs1", title := some "first" }

/-- A later course record with the same normalized identifier. -/
def wC2 : Course := { course_id := some " FS1 ", title := some "second" }

/-- The parsed entry of `wEv1`. -/
def wP1 : PEnt Event := ⟨"2025-01-01", 600, 660, wEv1⟩

/-- The parsed entry of `wEv2`. -/
def wP2 : PEnt Event := ⟨"2025-01-01", 630, 720, wEv2⟩

example :
    find_conflicts
      [{ date := some "2025-01-01", start := some "10:00", «end» := some "11:00" },
       { date := some "2025-01-01", start := some "10:30", «end» := some "12:00" }] =
    [({ date := some "2025-01-01", start := some "10:00", «end» := some "11:00" },
      { date := some "2025-01-01", start := some "10:30", «end» := some "12:00" })] := by
  decide

example :
    find_conflicts
      [{ date := some "2025-01-01", start := some "10:00", «end» := some "11:00" },
       { date := some "2025-01-01", start := some "11:00", «end» := some "12:00" }] = [] := by
  decide

example :
    find_conflicts
      [{ date := some "2025-01-01", start := some "10:00", «end» := some "11:00" },
       { date := some "2025-01-02", start := some "10:30", «end» := some "12:00" }] = [] := by
  decide

example : time_to_minutes "07:05" = some 425 := by decide

example : time_to_minutes "24:00" = none := by decide

example : time_to_minutes " 9:30 " = some 570 := by decide

example : pyStrip "  ab c  " = "ab c" := by decide

example : pyUpper "fs261059" = "FS261059" := by decide

example : pyWeekday ⟨2025, 10, 12⟩ = 6 := by decide

example : pyWeekday ⟨2025, 1, 1⟩ = 2 := by decide

example : pyWeekday ⟨2026, 1, 1⟩ = 3 := by decide

example : week_key ⟨2025, 10, 12⟩ = (2025, 41) := by decide

example : week_key ⟨2024, 12, 30⟩ = (2025, 1) := by decide

example : week_key ⟨2027, 1, 1⟩ = (2026, 53) := by decide

example : parse_date "2025-10-12" = some ⟨2025, 10, 12⟩ := by decide

example : parse_date "2025-13-01" = none := by decide

example : parse_date "2025-02-29" = none := by decide

example : parse_date "2024-02-29" = some ⟨2024, 2, 29⟩ := by decide

/-! ## Facts about the string primitives -/

theorem toNat_ofNat_lt {n : Nat} (h : n < 55296) : (Char.ofNat n).toNat = n := by
  unfold Char.ofNat
  have hv : n.isValidChar := by
    unfold Nat.isValidChar
    omega
  rw [dif_pos hv]
  simp [Char.toNat, Char.ofNatAux, UInt32.toNat, BitVec.toNat_ofNatLt]

theorem pyUpperChar_toNat (c : Char) :
    (pyUpperChar c).toNat =
      if 97 ≤ c.toNat ∧ c.toNat ≤ 122 then c.toNat - 32 else c.toNat := by
  unfold pyUpperChar
  split
  · next h => exact toNat_ofNat_lt (by omega)
  · rfl

theorem pyUpperChar_eq_self {c : Char} (h : ¬(97 ≤ c.toNat ∧ c.toNat ≤ 122)) :
    pyUpperChar c = c := by
  unfold pyUpperChar
  rw [if_neg h]

theorem pyUpperChar_idem (c : Char) :
    pyUpperChar (pyUpperChar c) = pyUpperChar c := by
  apply pyUpperChar_eq_self
  rw [pyUpperChar_toNat]
  by_cases hc : 97 ≤ c.toNat ∧ c.toNat ≤ 122
  · rw [if_pos hc]; omega
  · rw [if_neg hc]; exact hc

theorem isPySpace_pyUpperChar (c : Char) :
    isPySpace (pyUpperChar c) = isPySpace c := by
  have h := pyUpperChar_toNat c
  by_cases hc : 97 ≤ c.toNat ∧ c.toNat ≤ 122
  · rw [if_pos hc] at h
    have h1 : isPySpace (pyUpperChar c) = false := by
      simp only [isPySpace, h, Bool.or_eq_false_iff, decide_eq_false_iff_not]
      omega
    have h2 : isPySpace c = false := by
      simp only [isPySpace, Bool.or_eq_false_iff, decide_eq_false_iff_not]
      omega
    rw [h1, h2]
  · rw [if_neg hc] at h
    simp only [isPySpace, h]

section DropWhileFacts

variable {α : Type} {p : α → Bool}

theorem head_dropWhile_not :
    ∀ (l : List α) (c : α), (List.dropWhile p l).head? = some c → p c = false := by
  intro l
  induction l with
  | nil => intro c h; simp [List.dropWhile] at h
  | cons a t ih =>
    intro c h
    rw [List.dropWhile_cons] at h
    by_cases hp : p a
    · rw [if_pos hp] at h; exact ih c h
    · rw [if_neg hp] at h
      simp only [List.head?_cons, Option.some.injEq] at h
      subst h
      exact Bool.eq_false_iff.mpr hp

theorem getLast_dropWhile :
    ∀ l : List α, List.dropWhile p l ≠ [] →
      (List.dropWhile p l).getLast? = l.getLast? := by
  intro l
  induction l with
  | nil => intro h; simp [List.dropWhile] at h
  | cons a t ih =>
    intro h
    rw [List.dropWhile_cons] at h ⊢
    by_cases hp : p a
    · rw [if_pos hp] at h ⊢
      have ht : t ≠ [] := by
        intro he
        subst he
        simp [List.dropWhile] at h
      obtain ⟨b, t', rfl⟩ := List.exists_cons_of_ne_nil ht
      rw [ih h, List.getLast?_cons_cons]
    · rw [if_neg hp]

theorem dropWhile_eq_self_of_head
    (l : List α) (h : ∀ c, l.head? = some c → p c = false) :
    List.dropWhile p l = l := by
  cases l with
  | nil => rfl
  | cons a t =>
    rw [List.dropWhile_cons, if_neg]
    simp [h a rfl]

end DropWhileFacts

/-- A character list with no leading and no trailing Python whitespace:
exactly the fixed points of `stripChars`. -/
def noEdgeSpace (l : List Char) : Prop :=
  (∀ c, l.head? = some c → isPySpace c = false) ∧
  (∀ c, l.getLast? = some c → isPySpace c = false)

theorem stripChars_noEdgeSpace (l : List Char) : noEdgeSpace (stripChars l) := by
  constructor
  · intro c h
    exact head_dropWhile_not _ c h
  · intro c h
    unfold stripChars at h
    set X := (List.dropWhile isPySpace l.reverse).reverse with hX
    have hne : List.dropWhile isPySpace X ≠ [] := by
      intro he
      rw [he] at h
      simp at h
    rw [getLast_dropWhile X hne] at h
    have : X.getLast? = (List.dropWhile isPySpace l.reverse).head? := by
      rw [← List.head?_reverse, hX, List.reverse_reverse]
    rw [this] at h
    exact head_dropWhile_not _ c h

theorem stripChars_of_noEdgeSpace {l : List Char} (h : noEdgeSpace l) :
    stripChars l = l := by
  unfold stripChars
  have h1 : List.dropWhile isPySpace l.reverse = l.reverse := by
    apply dropWhile_eq_self_of_head
    intro c hc
    rw [List.head?_reverse] at hc
    exact h.2 c hc
  rw [h1, List.reverse_reverse]
  exact dropWhile_eq_self_of_head l h.1

theorem stripChars_idem (l : List Char) :
    stripChars (stripChars l) = stripChars l :=
  stripChars_of_noEdgeSpace (stripChars_noEdgeSpace l)

theorem stripChars_map_pyUpperChar (l : List Char) :
    stripChars (l.map pyUpperChar) = (stripChars l).map pyUpperChar := by
  unfold stripChars
  have hsp : isPySpace ∘ pyUpperChar = isPySpace := by
    funext c
    exact isPySpace_pyUpperChar c
  rw [← List.map_reverse, List.dropWhile_map, hsp, ← List.map_reverse,
    List.dropWhile_map, hsp]

theorem pyStrip_pyUpper (s : String) :
    pyStrip (pyUpper s) = pyUpper (pyStrip s) := by
  unfold pyStrip pyUpper
  simp [stripChars_map_pyUpperChar]

theorem pyStrip_idem (s : String) : pyStrip (pyStrip s) = pyStrip s := by
  unfold pyStrip
  simp [stripChars_idem]

theorem pyUpper_idem (s : String) : pyUpper (pyUpper s) = pyUpper s := by
  unfold pyUpper
  simp only [List.map_map]
  congr 1
  apply List.map_congr_left
  intro c _
  exact pyUpperChar_idem c

theorem pyUpper_eq_empty_iff (s : String) : pyUpper s = "" ↔ s = "" := by
  unfold pyUpper
  cases s with
  | mk data =>
    constructor
    · intro h
      have : data.map pyUpperChar = [] := by
        have := congrArg String.data h
        simpa using this
      simp only [List.map_eq_nil_iff] at this
      simp [this]
    · intro h
      have : data = [] := by
        have := congrArg String.data h
        simpa using this
      simp [this]

/-! ## The Python string order -/

theorem strLtB_irrefl : ∀ l : List Char, strLtB l l = false := by
  intro l
  induction l with
  | nil => rfl
  | cons a t ih =>
    unfold strLtB
    rw [if_neg (by omega), if_pos rfl]
    exact ih

theorem strLtB_asymm :
    ∀ a b : List Char, strLtB a b = true → strLtB b a = false := by
  intro a
  induction a with
  | nil =>
    intro b h
    cases b with
    | nil => simpa [strLtB] using h
    | cons c t => rfl
  | cons x xs ih =>
    intro b h
    cases b with
    | nil => simpa [strLtB] using h
    | cons y ys =>
      unfold strLtB at h ⊢
      by_cases hxy : x.toNat < y.toNat
      · rw [if_neg (by omega), if_neg]
        intro he
        subst he
        omega
      · rw [if_neg hxy] at h
        by_cases hee : x = y
        · rw [if_pos hee] at h
          subst hee
          rw [if_neg (by omega), if_pos rfl]
          exact ih ys h
        · rw [if_neg hee] at h
          exact absurd h (by simp)

theorem strLtB_total_eq :
    ∀ a b : List Char, strLtB a b = false → strLtB b a = false → a = b := by
  intro a
  induction a with
  | nil =>
    intro b h1 _
    cases b with
    | nil => rfl
    | cons c t => simp [strLtB] at h1
  | cons x xs ih =>
    intro b h1 h2
    cases b with
    | nil => simp [strLtB] at h2
    | cons y ys =>
      unfold strLtB at h1 h2
      by_cases hxy : x.toNat < y.toNat
      · rw [if_pos hxy] at h1; exact absurd h1 (by simp)
      · by_cases hyx : y.toNat < x.toNat
        · rw [if_pos hyx] at h2; exact absurd h2 (by simp)
        · have hnat : x.toNat = y.toNat := by omega
          have hee : x = y := Char.ext (UInt32.ext hnat)
          rw [if_neg hxy, if_pos hee] at h1
          rw [if_neg hyx, if_pos hee.symm] at h2
          rw [hee, ih ys h1 h2]

theorem strLtB_trans :
    ∀ a b c : List Char,
      strLtB a b = true → strLtB b c = true → strLtB a c = true := by
  intro a
  induction a with
  | nil =>
    intro b c h1 h2
    cases b with
    | nil => simp [strLtB] at h1
    | cons y ys =>
      cases c with
      | nil => simp [strLtB] at h2
      | cons z zs => rfl
  | cons x xs ih =>
    intro b c h1 h2
    cases b with
    | nil => simp [strLtB] at h1
    | cons y ys =>
      cases c with
      | nil => simp [strLtB] at h2
      | cons z zs =>
        unfold strLtB at h1 h2 ⊢
        by_cases hxy : x.toNat < y.toNat
        · by_cases hyz : y.toNat < z.toNat
          · rw [if_pos (by omega)]
          · rw [if_neg hyz] at h2
            by_cases hez : y = z
            · subst hez; rw [if_pos hxy]
            · rw [if_neg hez] at h2; exact absurd h2 (by simp)
        · rw [if_neg hxy] at h1
          by_cases hexy : x = y
          · rw [if_pos hexy] at h1
            subst hexy
            by_cases hyz : x.toNat < z.toNat
            · rw [if_pos hyz]
            · rw [if_neg hyz] at h2 ⊢
              by_cases hez : x = z
              · rw [if_pos hez] at h2 ⊢
                exact ih ys zs h1 h2
              · rw [if_neg hez] at h2; exact absurd h2 (by simp)
          · rw [if_neg hexy] at h1; exact absurd h1 (by simp)

theorem pyStrLe_iff (a b : String) :
    pyStrLe a b ↔ strLtB b.data a.data = false := by
  unfold pyStrLe pyStrLeB pyStrLtB
  cases h : strLtB b.data a.data <;> simp

instance : IsTotal String pyStrLe := by
  constructor
  intro a b
  rw [pyStrLe_iff, pyStrLe_iff]
  by_cases h : strLtB b.data a.data = true
  · right
    exact strLtB_asymm _ _ h
  · left
    simpa using h

instance : IsTrans String pyStrLe := by
  constructor
  intro a b c hab hbc
  rw [pyStrLe_iff] at hab hbc ⊢
  by_contra hca'
  have hca : strLtB c.data a.data = true := by
    cases h : strLtB c.data a.data
    · exact absurd h hca'
    · rfl
  by_cases hab2 : strLtB a.data b.data = true
  · have := strLtB_trans _ _ _ hca hab2
    rw [this] at hbc
    exact absurd hbc (by simp)
  · have heq : a.data = b.data :=
      strLtB_total_eq _ _ (by simpa using hab2) hab
    rw [heq] at hca
    rw [hca] at hbc
    exact absurd hbc (by simp)

/-! ## Facts about the conflict scan -/

/-- Transform the payload of a parsed entry, keeping date and times. -/
def PEnt.mapEv {α β : Type} (f : α → β) (x : PEnt α) : PEnt β :=
  ⟨x.date, x.startM, x.endM, f x.ev⟩

theorem mem_conflictScan {α : Type} [DecidableEq α]
    (L : List (PEnt α)) (p : PEnt α × PEnt α) :
    p ∈ conflictScan L ↔
      ∃ x y, [x, y].Sublist L ∧ p = (x, y) ∧ x.date = y.date ∧
        overlaps x.startM x.endM y.startM y.endM = true := by
  induction L with
  | nil =>
    simp only [conflictScan, List.not_mem_nil, false_iff]
    rintro ⟨x, y, hsub, -⟩
    exact absurd (hsub.mem (List.mem_cons_self x [y])) (List.not_mem_nil x)
  | cons z rest ih =>
    constructor
    · intro hp
      rcases List.mem_append.mp hp with hb | hr
      · rcases List.mem_filterMap.mp hb with ⟨y, hy, hsome⟩
        by_cases hc : z.date = y.date ∧
            overlaps z.startM z.endM y.startM y.endM = true
        · rw [if_pos hc] at hsome
          cases hsome
          exact ⟨z, y,
            List.Sublist.cons₂ z (List.singleton_sublist.mpr hy),
            rfl, hc.1, hc.2⟩
        · rw [if_neg hc] at hsome
          cases hsome
      · rcases ih.mp hr with ⟨x, y, hsub, rfl, hd, ho⟩
        exact ⟨x, y, hsub.cons z, rfl, hd, ho⟩
    · rintro ⟨x, y, hsub, rfl, hd, ho⟩
      cases hsub with
      | cons _ h =>
        exact List.mem_append.mpr (Or.inr (ih.mpr ⟨x, y, h, rfl, hd, ho⟩))
      | cons₂ _ h =>
        refine List.mem_append.mpr (Or.inl (List.mem_filterMap.mpr
          ⟨y, List.singleton_sublist.mp h, ?_⟩))
        rw [if_pos ⟨hd, ho⟩]

theorem mem_conflictScan_comp {α : Type} [DecidableEq α]
    {L : List (PEnt α)} {p : PEnt α × PEnt α} (hp : p ∈ conflictScan L) :
    p.1 ∈ L ∧ p.2 ∈ L := by
  rcases (mem_conflictScan L p).mp hp with ⟨x, y, hsub, rfl, -⟩
  exact ⟨hsub.mem (List.mem_cons_self x [y]),
    hsub.mem (List.mem_cons_of_mem x (List.mem_cons_self y []))⟩

theorem conflictScan_mapEv {α β : Type} (f : α → β) :
    ∀ L : List (PEnt α),
      conflictScan (L.map (PEnt.mapEv f)) =
        (conflictScan L).map fun p => (p.1.mapEv f, p.2.mapEv f) := by
  intro L
  induction L with
  | nil => rfl
  | cons z rest ih =>
    simp only [List.map_cons, conflictScan, List.map_append, ih]
    congr 1
    rw [List.filterMap_map, List.map_filterMap]
    apply List.filterMap_congr
    intro y _
    simp only [Function.comp_apply, PEnt.mapEv]
    by_cases hc : z.date = y.date ∧
        overlaps z.startM z.endM y.startM y.endM = true
    · rw [if_pos hc, if_pos hc]
      rfl
    · rw [if_neg hc, if_neg hc]
      rfl

theorem parseEvents_eq_mapEv_idx (events : List Event) :
    parseEvents events = (parseEventsIdx events).map (PEnt.mapEv Prod.snd) := by
  unfold parseEvents parseEventsIdx
  rw [List.map_filterMap]
  conv_lhs => rw [← List.enum_map_snd events, List.filterMap_map]
  apply List.filterMap_congr
  intro ie _
  simp only [Function.comp_apply, Option.map_map]
  cases parseEvent ie.2 with
  | none => rfl
  | some t => rfl

theorem mem_parseEvents {events : List Event} {t : PEnt Event}
    (ht : t ∈ parseEvents events) :
    parseEvent t.ev = some (t.date, t.startM, t.endM) ∧ t.ev ∈ events := by
  rcases List.mem_filterMap.mp ht with ⟨ev, hev, hsome⟩
  cases hpe : parseEvent ev with
  | none => rw [hpe] at hsome; cases hsome
  | some tr =>
    rw [hpe] at hsome
    simp only [Option.map_some', Option.some.injEq] at hsome
    subst hsome
    exact ⟨hpe, hev⟩

theorem parseEvents_ev_inj {events : List Event} {t t' : PEnt Event}
    (ht : t ∈ parseEvents events) (ht' : t' ∈ parseEvents events)
    (hev : t.ev = t'.ev) : t = t' := by
  have h1 := (mem_parseEvents ht).1
  have h2 := (mem_parseEvents ht').1
  rw [hev, h2] at h1
  cases t
  cases t'
  simp_all

theorem parseEventsIdx_pairwise (events : List Event) :
    (parseEventsIdx events).Pairwise fun a b => a.ev.1 < b.ev.1 := by
  unfold parseEventsIdx
  rw [List.pairwise_filterMap]
  have h1 : (events.enum.map Prod.fst).Pairwise (· < ·) := by
    rw [List.enum_map_fst]
    exact List.pairwise_lt_range _
  have h2 : events.enum.Pairwise fun a b => a.1 < b.1 :=
    List.pairwise_map.mp h1
  refine h2.imp ?_
  intro ie je hlt b hb b' hb'
  rw [Option.mem_def] at hb hb'
  rcases Option.map_eq_some'.mp hb with ⟨t, hpe, rfl⟩
  rcases Option.map_eq_some'.mp hb' with ⟨t', hpe', rfl⟩
  exact hlt

theorem conflictScan_pairwise {α : Type} [DecidableEq α]
    {R : PEnt α → PEnt α → Prop} :
    ∀ {L : List (PEnt α)}, L.Pairwise R →
      (conflictScan L).Pairwise fun p q =>
        R p.1 q.1 ∨ (p.1 = q.1 ∧ R p.2 q.2) := by
  intro L
  induction L with
  | nil => intro; exact List.Pairwise.nil
  | cons z rest ih =>
    intro hLP
    rw [List.pairwise_cons] at hLP
    obtain ⟨hz, hrest⟩ := hLP
    unfold conflictScan
    rw [List.pairwise_append]
    refine ⟨?_, ih hrest, ?_⟩
    · rw [List.pairwise_filterMap]
      refine hrest.imp ?_
      intro y y' hR b hb b' hb'
      by_cases hc : z.date = y.date ∧
          overlaps z.startM z.endM y.startM y.endM = true
      · rw [if_pos hc] at hb
        by_cases hc' : z.date = y'.date ∧
            overlaps z.startM z.endM y'.startM y'.endM = true
        · rw [if_pos hc'] at hb'
          simp only [Option.mem_def, Option.some.injEq] at hb hb'
          subst hb
          subst hb'
          exact Or.inr ⟨rfl, hR⟩
        · rw [if_neg hc'] at hb'; cases hb'
      · rw [if_neg hc] at hb; cases hb
    · intro p hp q hq
      have hp1 : p.1 = z := by
        rcases List.mem_filterMap.mp hp with ⟨y, _, hsome⟩
        by_cases hc : z.date = y.date ∧
            overlaps z.startM z.endM y.startM y.endM = true
        · rw [if_pos hc] at hsome
          cases hsome
          rfl
        · rw [if_neg hc] at hsome; cases hsome
      have hq1 : q.1 ∈ rest := (mem_conflictScan_comp hq).1
      rw [hp1]
      exact Or.inl (hz q.1 hq1)

instance : IsAntisymm String pyStrLe := by
  constructor
  intro a b hab hba
  rw [pyStrLe_iff] at hab hba
  have : b.data = a.data := strLtB_total_eq _ _ hab hba
  cases a; cases b
  exact congrArg String.mk this.symm

/-! ## Claims about the conflict engine -/

/-- **C1.** For every pair of events that survive the robustness filter of
`find_conflicts` (entries `A` then `B` of the pre-parsed list, in input
order), the pair is reported as a conflict iff the two events have the
same date and `startA < endB ∧ endA > startB` (minutes since midnight);
touching endpoints (`endA = startB`) are never reported, and events on
different dates are never reported regardless of their times. -/
theorem find_conflicts_pair_iff (events : List Event) (A B : PEnt Event)
    (hAB : [A, B].Sublist (parseEvents events)) :
    (A.ev, B.ev) ∈ find_conflicts events ↔
      A.date = B.date ∧ A.startM < B.endM ∧ A.endM > B.startM := by
  constructor
  · intro hmem
    rcases List.mem_map.mp hmem with ⟨p, hp, hpe⟩
    rcases (mem_conflictScan _ p).mp hp with ⟨x, y, hsub, rfl, hd, ho⟩
    simp only [Prod.mk.injEq] at hpe
    have hA : A ∈ parseEvents events := hAB.mem (List.mem_cons_self A [B])
    have hB : B ∈ parseEvents events :=
      hAB.mem (List.mem_cons_of_mem A (List.mem_cons_self B []))
    have hx : x ∈ parseEvents events := hsub.mem (List.mem_cons_self x [y])
    have hy : y ∈ parseEvents events :=
      hsub.mem (List.mem_cons_of_mem x (List.mem_cons_self y []))
    have hxA : x = A := parseEvents_ev_inj hx hA hpe.1
    have hyB : y = B := parseEvents_ev_inj hy hB hpe.2
    subst hxA
    subst hyB
    simp only [overlaps, Bool.and_eq_true, decide_eq_true_eq] at ho
    exact ⟨hd, ho.1, ho.2⟩
  · rintro ⟨hd, h1, h2⟩
    refine List.mem_map.mpr ⟨(A, B), (mem_conflictScan _ _).mpr
      ⟨A, B, hAB, rfl, hd, ?_⟩, rfl⟩
    simp only [overlaps, Bool.and_eq_true, decide_eq_true_eq]
    exact ⟨h1, h2⟩

theorem find_conflicts_pair_iff_witness :
    [wP1, wP2].Sublist (parseEvents [wEv1, wEv2]) ∧
    ((wP1.ev, wP2.ev) ∈ find_conflicts [wEv1, wEv2] ↔
      wP1.date = wP2.date ∧ wP1.startM < wP2.endM ∧ wP1.endM > wP2.startM) :=
  ⟨by decide, find_conflicts_pair_iff [wEv1, wEv2] wP1 wP2 (by decide)⟩

/-- **C2.** `find_conflicts` is total (it is a Lean function, so it never
raises), and it silently excludes any event rejected by the robustness
filter — missing/empty date, start or end, unparsable `HH:MM` time, or
`end ≤ start` (`parseEvent ev = none`): such an event appears in no
reported conflict pair. -/
theorem find_conflicts_excludes_invalid (events : List Event) (ev : Event)
    (hbad : parseEvent ev = none) :
    ∀ p ∈ find_conflicts events, p.1 ≠ ev ∧ p.2 ≠ ev := by
  intro p hp
  rcases List.mem_map.mp hp with ⟨q, hq, rfl⟩
  obtain ⟨h1, h2⟩ := mem_conflictScan_comp hq
  constructor
  · intro he
    have he' : q.1.ev = ev := he
    have hv := (mem_parseEvents h1).1
    rw [he', hbad] at hv
    cases hv
  · intro he
    have he' : q.2.ev = ev := he
    have hv := (mem_parseEvents h2).1
    rw [he', hbad] at hv
    cases hv

theorem find_conflicts_excludes_invalid_witness :
    parseEvent wBadEv = none ∧
    ∀ p ∈ find_conflicts [wEv1, wBadEv, wEv2], p.1 ≠ wBadEv ∧ p.2 ≠ wBadEv :=
  ⟨by decide, find_conflicts_excludes_invalid [wEv1, wBadEv, wEv2] wBadEv (by decide)⟩

/-- **C6.** `find_conflicts` reports each unordered pair of conflicting
events exactly once and never pairs an occurrence with itself: tagging
every surviving event with its input position, the reported list is the
projection of a list of position-tagged pairs in which the first position
is always strictly smaller than the second (first-encountered index
order), and the list of position pairs has no duplicates. -/
theorem find_conflicts_pairs_unique (events : List Event) :
    find_conflicts events =
      (findConflictsIdx events).map (fun p => (p.1.2, p.2.2)) ∧
    (∀ p ∈ findConflictsIdx events, p.1.1 < p.2.1) ∧
    ((findConflictsIdx events).map fun p => (p.1.1, p.2.1)).Nodup := by
  refine ⟨?_, ?_, ?_⟩
  · unfold find_conflicts findConflictsIdx
    rw [parseEvents_eq_mapEv_idx, conflictScan_mapEv, List.map_map, List.map_map]
    rfl
  · intro p hp
    rcases List.mem_map.mp hp with ⟨q, hq, rfl⟩
    rcases (mem_conflictScan _ q).mp hq with ⟨x, y, hsub, rfl, -⟩
    have hpw := parseEventsIdx_pairwise events
    have hxy := hpw.sublist hsub
    rw [List.pairwise_cons] at hxy
    exact hxy.1 y (List.mem_cons_self y [])
  · have hpw := conflictScan_pairwise (parseEventsIdx_pairwise events)
    unfold findConflictsIdx
    rw [List.map_map]
    refine List.pairwise_map.mpr ?_
    refine hpw.imp ?_
    intro a b hlex heq
    simp only [Function.comp_apply, Prod.mk.injEq] at heq
    rcases hlex with hlt | ⟨hfst, hlt⟩
    · rw [heq.1] at hlt
      exact lt_irrefl _ hlt
    · rw [heq.2] at hlt
      exact lt_irrefl _ hlt

theorem find_conflicts_pairs_unique_witness :
    ((findConflictsIdx [wEv1, wEv2, wEv1]).map fun p => (p.1.1, p.2.1)).Nodup ∧
    (∀ p ∈ findConflictsIdx [wEv1, wEv2, wEv1], p.1.1 < p.2.1) :=
  ⟨(find_conflicts_pairs_unique [wEv1, wEv2, wEv1]).2.2,
   (find_conflicts_pairs_unique [wEv1, wEv2, wEv1]).2.1⟩

/-! ## Facts about the selection store -/

theorem perm_toFinset {α : Type} [DecidableEq α] {l l' : List α}
    (h : l.Perm l') : l.toFinset = l'.toFinset := by
  ext a
  simp [List.mem_toFinset, h.mem_iff]

theorem dedup_toFinset {α : Type} [DecidableEq α] (l : List α) :
    l.dedup.toFinset = l.toFinset := by
  ext a
  simp [List.mem_toFinset, List.mem_dedup]

/-- Every ID in the persisted list is a fixed point of the normalization:
already stripped, already upper-case, nonempty. -/
theorem mem_save_norm {ids : List String} {y : String}
    (hy : y ∈ save_selected_course_ids ids) :
    pyStrip y = y ∧ pyUpper y = y ∧ y ≠ "" := by
  unfold save_selected_course_ids pySortStrings at hy
  rw [List.mem_insertionSort, List.mem_dedup] at hy
  rcases List.mem_map.mp hy with ⟨x, hx, rfl⟩
  have hxs : pyStrip x ≠ "" := by
    have h2 := (List.mem_filter.mp hx).2
    simpa using h2
  refine ⟨?_, pyUpper_idem _, ?_⟩
  · rw [pyStrip_pyUpper, pyStrip_idem]
  · intro h
    exact hxs ((pyUpper_eq_empty_iff _).mp h)

theorem foldl_loadIdsStep_strs (ys : List String)
    (hys : ∀ y ∈ ys, pyStrip y = y ∧ pyUpper y = y ∧ y ≠ "") :
    ∀ acc : Finset String,
      (ys.map Json.str).foldl loadIdsStep acc = acc ∪ ys.toFinset := by
  induction ys with
  | nil => intro acc; simp
  | cons y t ih =>
    intro acc
    obtain ⟨h1, h2, h3⟩ := hys y (List.mem_cons_self y t)
    have hstep : loadIdsStep acc (Json.str y) = insert y acc := by
      show (let cid := pyUpper (pyStrip y);
        if cid ≠ "" then insert cid acc else acc) = insert y acc
      rw [h1, h2, if_pos h3]
    rw [List.map_cons, List.foldl_cons, hstep,
      ih (fun y hy => hys y (List.mem_cons_of_mem _ hy)) (insert y acc),
      List.toFinset_cons, Finset.insert_union, Finset.union_insert]

theorem save_toFinset (ids : List String) :
    (save_selected_course_ids ids).toFinset = normSelected ids := by
  unfold save_selected_course_ids pySortStrings
  rw [perm_toFinset (List.perm_insertionSort _ _), dedup_toFinset]
  rfl

theorem load_savedPayload (ids : List String) :
    load_selected_course_ids (.parsed (savedPayload ids)) = normSelected ids := by
  have hl : jsonLookup "selected_course_ids"
      [("selected_course_ids",
        Json.arr ((save_selected_course_ids ids).map .str))] =
      some (Json.arr ((save_selected_course_ids ids).map .str)) := by
    unfold jsonLookup
    simp
  show loadIdsArr ((jsonLookup "selected_course_ids"
      [("selected_course_ids",
        Json.arr ((save_selected_course_ids ids).map .str))]).getD (.arr [])) =
    normSelected ids
  rw [hl]
  show ((save_selected_course_ids ids).map Json.str).foldl loadIdsStep ∅ =
    normSelected ids
  rw [foldl_loadIdsStep_strs _ (fun y hy => mem_save_norm hy) ∅,
    Finset.empty_union, save_toFinset]

/-! ## Claims about the selection store -/

/-- **C4.** Loading the selection never raises (the embedding is a total
function on every read outcome) and returns the empty set when the backing
file does not exist, is unreadable, is not valid JSON, or holds a record
whose `selected_course_ids` value is not a list. -/
theorem load_selected_defensive :
    load_selected_course_ids .missing = ∅ ∧
    load_selected_course_ids .readError = ∅ ∧
    load_selected_course_ids .badJson = ∅ ∧
    (∀ kvs v, jsonLookup "selected_course_ids" kvs = some v →
      (∀ xs, v ≠ Json.arr xs) →
      load_selected_course_ids (.parsed (.obj kvs)) = ∅) := by
  refine ⟨rfl, rfl, rfl, ?_⟩
  intro kvs v hl hnot
  show loadIdsArr ((jsonLookup "selected_course_ids" kvs).getD (.arr [])) = ∅
  rw [hl]
  show loadIdsArr v = ∅
  cases v with
  | arr xs => exact absurd rfl (hnot xs)
  | null => rfl
  | bool b => rfl
  | num n => rfl
  | str s => rfl
  | obj kvs2 => rfl

theorem load_selected_defensive_witness :
    jsonLookup "selected_course_ids"
      [("selected_course_ids", Json.num 5)] = some (Json.num 5) ∧
    load_selected_course_ids
      (.parsed (.obj [("selected_course_ids", Json.num 5)])) = ∅ :=
  ⟨rfl, load_selected_defensive.2.2.2 _ (Json.num 5) rfl
    (fun xs h => Json.noConfusion h)⟩

/-- **C5.** `save` normalizes each ID (trim, upper-case, drop empty) and
persists the canonical sorted duplicate-free list; a subsequent `load`
returns exactly the set of normalized IDs (round-trip).  In particular
`save ["fs261059", " FS261110 "]` persists `["FS261059", "FS261110"]` and
loads back as the set of those two IDs. -/
theorem save_load_round_trip :
    (∀ ids : List String,
      load_selected_course_ids (.parsed (savedPayload ids)) = normSelected ids ∧
      List.Sorted pyStrLe (save_selected_course_ids ids) ∧
      (save_selected_course_ids ids).Nodup ∧
      (save_selected_course_ids ids).toFinset = normSelected ids) ∧
    load_selected_course_ids (.parsed (savedPayload ["fs261059", " FS261110 "])) =
      {"FS261059", "FS261110"} ∧
    save_selected_course_ids ["fs261059", " FS261110 "] =
      ["FS261059", "FS261110"] := by
  refine ⟨?_, ?_, ?_⟩
  · intro ids
    refine ⟨load_savedPayload ids, ?_, ?_, save_toFinset ids⟩
    · exact List.sorted_insertionSort pyStrLe _
    · exact (List.perm_insertionSort pyStrLe _).symm.nodup (List.nodup_dedup _)
  · decide
  · decide

/-- **C9.** Adding a course identifier that is already selected leaves
both the persisted store and the loaded in-memory set unchanged
(`_cmd_add` returns before any save). -/
theorem cmd_add_idempotent (arg : String) (store : ReadResult)
    (h : pyUpper (pyStrip arg) ∈ load_selected_course_ids store) :
    cmd_add arg store = store ∧
    load_selected_course_ids (cmd_add arg store) =
      load_selected_course_ids store := by
  unfold cmd_add
  by_cases hc : pyUpper (pyStrip arg) = ""
  · rw [if_pos hc]
    exact ⟨rfl, rfl⟩
  · rw [if_neg hc, if_pos h]
    exact ⟨rfl, rfl⟩

theorem cmd_add_idempotent_witness :
    pyUpper (pyStrip " fs1 ") ∈ load_selected_course_ids wStore ∧
    cmd_add " fs1 " wStore = wStore ∧
    load_selected_course_ids (cmd_add " fs1 " wStore) =
      load_selected_course_ids wStore :=
  ⟨by decide, cmd_add_idempotent " fs1 " wStore (by decide)⟩

/-! ## Facts about the catalog index -/

theorem getLast?_cons_or {α : Type} (a : α) (l : List α) :
    (a :: l).getLast? = l.getLast?.or (some a) := by
  cases h : l.getLast? with
  | none =>
    rw [List.getLast?_eq_none_iff] at h
    subst h
    rfl
  | some x =>
    rw [List.getLast?_cons, h]
    rfl

theorem build_course_foldl (k : String) (hk : k ≠ "") :
    ∀ (l : List Course) (m : String → Option Course),
      (l.foldl (fun m c =>
        if normId c.course_id ≠ "" then
          fun k' => if k' = normId c.course_id then some c else m k'
        else m) m) k =
      ((l.filter fun c => normId c.course_id = k).getLast?).or (m k) := by
  intro l
  induction l with
  | nil => intro m; simp
  | cons c l ih =>
    intro m
    rw [List.foldl_cons, ih]
    by_cases hm : normId c.course_id = k
    · have hne : normId c.course_id ≠ "" := by rw [hm]; exact hk
      have hstep : (if normId c.course_id ≠ "" then
          fun k' => if k' = normId c.course_id then some c else m k'
        else m) k = some c := by
        rw [if_pos hne, if_pos hm.symm]
      rw [hstep, List.filter_cons,
        if_pos (show decide (normId c.course_id = k) = true from decide_eq_true hm),
        getLast?_cons_or, Option.or_assoc]
      rfl
    · have hstep : (if normId c.course_id ≠ "" then
          fun k' => if k' = normId c.course_id then some c else m k'
        else m) k = m k := by
        by_cases hne : normId c.course_id = ""
        · rw [if_neg (show ¬ normId c.course_id ≠ "" by simpa using hne)]
        · rw [if_pos hne, if_neg (fun h => hm h.symm)]
      rw [hstep, List.filter_cons,
        if_neg (show ¬ decide (normId c.course_id = k) = true by simpa using hm)]

theorem build_course_foldl_empty :
    ∀ (l : List Course) (m : String → Option Course),
      (l.foldl (fun m c =>
        if normId c.course_id ≠ "" then
          fun k' => if k' = normId c.course_id then some c else m k'
        else m) m) "" = m "" := by
  intro l
  induction l with
  | nil => intro m; rfl
  | cons c l ih =>
    intro m
    rw [List.foldl_cons, ih]
    by_cases hne : normId c.course_id = ""
    · rw [if_neg (by simpa using hne)]
    · rw [if_pos hne, if_neg (fun h => hne h.symm)]

theorem build_events_foldl (k : String) (hk : k ≠ "") :
    ∀ (l : List Event) (m : String → List Event),
      (l.foldl (fun m e =>
        if normId e.course_id ≠ "" then
          fun k' => if k' = normId e.course_id then m k' ++ [e] else m k'
        else m) m) k =
      m k ++ (l.filter fun e => normId e.course_id = k) := by
  intro l
  induction l with
  | nil => intro m; simp
  | cons e l ih =>
    intro m
    rw [List.foldl_cons, ih]
    by_cases hm : normId e.course_id = k
    · have hne : normId e.course_id ≠ "" := by rw [hm]; exact hk
      have hstep : (if normId e.course_id ≠ "" then
          fun k' => if k' = normId e.course_id then m k' ++ [e] else m k'
        else m) k = m k ++ [e] := by
        rw [if_pos hne, if_pos hm.symm]
      rw [hstep, List.filter_cons,
        if_pos (show decide (normId e.course_id = k) = true from decide_eq_true hm),
        List.append_assoc, List.singleton_append]
    · have hstep : (if normId e.course_id ≠ "" then
          fun k' => if k' = normId e.course_id then m k' ++ [e] else m k'
        else m) k = m k := by
        by_cases hne : normId e.course_id = ""
        · rw [if_neg (show ¬ normId e.course_id ≠ "" by simpa using hne)]
        · rw [if_pos hne, if_neg (fun h => hm h.symm)]
      rw [hstep, List.filter_cons,
        if_neg (show ¬ decide (normId e.course_id = k) = true by simpa using hm)]

theorem build_events_foldl_empty :
    ∀ (l : List Event) (m : String → List Event),
      (l.foldl (fun m e =>
        if normId e.course_id ≠ "" then
          fun k' => if k' = normId e.course_id then m k' ++ [e] else m k'
        else m) m) "" = m "" := by
  intro l
  induction l with
  | nil => intro m; rfl
  | cons e l ih =>
    intro m
    rw [List.foldl_cons, ih]
    by_cases hne : normId e.course_id = ""
    · rw [if_neg (by simpa using hne)]
    · rw [if_pos hne, if_neg (fun h => hne h.symm)]

/-! ## Claim about the catalog index -/

/-- **C7.** Index construction normalizes each identifier (trim,
upper-case) before indexing: a lookup of `cid` returns exactly the
records whose normalized identifier equals `cid`.  Records whose
identifier is empty after normalization are silently dropped (they are
stored under no key, and the lookup of `""` is always empty), and when
the same normalized `course_id` occurs in two course records the later
occurrence is the one stored (`getLast?`: last-write-wins, no merge);
event records accumulate in input order instead. -/
theorem build_indexes_normalize (courses : List Course) (events : List Event)
    (cid : String) :
    build_course_by_id courses cid =
      (if cid = "" then none
       else (courses.filter fun c => normId c.course_id = cid).getLast?) ∧
    build_events_by_course_id events cid =
      (if cid = "" then []
       else events.filter fun e => normId e.course_id = cid) := by
  constructor
  · by_cases hc : cid = ""
    · rw [if_pos hc]
      subst hc
      exact build_course_foldl_empty courses _
    · rw [if_neg hc]
      unfold build_course_by_id
      rw [build_course_foldl cid hc courses _]
      exact Option.or_none
  · by_cases hc : cid = ""
    · rw [if_pos hc]
      subst hc
      exact build_events_foldl_empty events _
    · rw [if_neg hc]
      unfold build_events_by_course_id
      rw [build_events_foldl cid hc events _]
      rfl

example : build_course_by_id [wC1, wC2] "FS1" = some wC2 := by decide

example : build_course_by_id [wC1, wC2] "" = none := by decide

example : build_events_by_course_id [wEv1, wEv2] "C1" = [wEv1] := by decide

/-! ## Facts about the event sort key -/

theorem string_eq_of_data {a b : String} (h : a.data = b.data) : a = b := by
  cases a
  cases b
  exact congrArg String.mk h

theorem pyStrLtB_trans {a b c : String} (h1 : pyStrLtB a b = true)
    (h2 : pyStrLtB b c = true) : pyStrLtB a c = true :=
  strLtB_trans _ _ _ h1 h2

instance : IsTotal Event evKeyLe := by
  constructor
  intro a b
  by_cases h1 : pyStrLtB (getStr a.date) (getStr b.date) = true
  · exact Or.inl (Or.inl h1)
  · by_cases h2 : pyStrLtB (getStr b.date) (getStr a.date) = true
    · exact Or.inr (Or.inl h2)
    · have hd : getStr a.date = getStr b.date :=
        string_eq_of_data (strLtB_total_eq _ _
          (by simpa [pyStrLtB] using h1) (by simpa [pyStrLtB] using h2))
      rcases total_of pyStrLe (getStr a.start) (getStr b.start) with hs | hs
      · exact Or.inl (Or.inr ⟨hd, hs⟩)
      · exact Or.inr (Or.inr ⟨hd.symm, hs⟩)

instance : IsTrans Event evKeyLe := by
  constructor
  intro a b c hab hbc
  rcases hab with h1 | ⟨hd1, hs1⟩
  · rcases hbc with h2 | ⟨hd2, hs2⟩
    · exact Or.inl (pyStrLtB_trans h1 h2)
    · refine Or.inl ?_
      rw [← hd2]
      exact h1
  · rcases hbc with h2 | ⟨hd2, hs2⟩
    · refine Or.inl ?_
      rw [hd1]
      exact h2
    · exact Or.inr ⟨hd1.trans hd2, IsTrans.trans _ _ _ hs1 hs2⟩

/-! ## Claim about the selected-events views -/

/-- **C8 (amended).** The interactive selected-events view is a
permutation of the concatenated union of `events_by_course_id[cid]` over
the selected ids and is sorted by the key `(date, start)`; the CLI
selected-events view returns that concatenated union (buckets in sorted
course-id order) but does not sort it by `(date, start)`. -/
theorem selected_events_views (selected_ids : List String)
    (events_by_course_id : String → List Event) :
    cli_selected_events selected_ids events_by_course_id =
      ((pySortStrings selected_ids).map events_by_course_id).flatten ∧
    (interactive_selected_events selected_ids events_by_course_id).Perm
      (((pySortStrings selected_ids).map events_by_course_id).flatten) ∧
    List.Sorted evKeyLe
      (interactive_selected_events selected_ids events_by_course_id) :=
  ⟨rfl, List.perm_insertionSort evKeyLe _, List.sorted_insertionSort evKeyLe _⟩

/-- The original C8 claim is false for the CLI view cited by the claim:
with courses `A` (event on 2025-01-02) and `B` (event on 2025-01-01)
selected, `cli._selected_events` returns the events in course-id order,
which is not sorted by `(date, start)`, and differs from the sorted
interactive view. -/
theorem cli_selected_events_unsorted :
    cli_selected_events ["A", "B"] wEbcAB = [wEvA, wEvB] ∧
    ¬ evKeyLe wEvA wEvB ∧
    cli_selected_events ["A", "B"] wEbcAB ≠
      interactive_selected_events ["A", "B"] wEbcAB := by
  refine ⟨by decide, by decide, by decide⟩

/-! ## Claim about the candidate-add preview -/

theorem find_conflicts_mem {evs : List Event} {p : Event × Event}
    (hp : p ∈ find_conflicts evs) : p.1 ∈ evs ∧ p.2 ∈ evs := by
  rcases List.mem_map.mp hp with ⟨q, hq, rfl⟩
  obtain ⟨h1, h2⟩ := mem_conflictScan_comp hq
  exact ⟨(mem_parseEvents h1).2, (mem_parseEvents h2).2⟩

/-- **C3.** For a candidate course not in the current selection (and an
index whose buckets hold events of the bucket's course, as the index
build guarantees), `_conflicts_if_added` returns exactly the conflict
pairs of `find_conflicts(selected_events + candidate_events)` in which
exactly one event belongs to the candidate course and the other to an
already-selected course, normalized with the candidate's event first;
conflicts among selected courses and candidate-with-itself conflicts are
excluded. -/
theorem conflicts_if_added_spec (candidate_cid : String)
    (selected_ids : List String) (events_by_course_id : String → List Event)
    (hcand : candidate_cid ∉ selected_ids)
    (hwf : ∀ cid, ∀ e ∈ events_by_course_id cid, normId e.course_id = cid) :
    conflicts_if_added candidate_cid selected_ids events_by_course_id =
      candidate_preview_spec candidate_cid selected_ids events_by_course_id := by
  have hmem : ∀ e, e ∈ (selected_ids.map events_by_course_id).flatten →
      normId e.course_id ∈ selected_ids := by
    intro e he
    rcases List.mem_flatten.mp he with ⟨bucket, hb, heb⟩
    rcases List.mem_map.mp hb with ⟨cid, hcidmem, rfl⟩
    rw [hwf cid e heb]
    exact hcidmem
  unfold conflicts_if_added candidate_preview_spec
  by_cases h0 : events_by_course_id candidate_cid = [] ∨ selected_ids = []
  · rw [if_pos h0]
    symm
    rw [List.filterMap_eq_nil_iff]
    intro p hp
    obtain ⟨hp1, hp2⟩ := find_conflicts_mem hp
    rcases h0 with h0 | h0
    · rw [h0, List.append_nil] at hp1 hp2
      have hane : normId p.1.course_id ≠ candidate_cid :=
        fun h => hcand (h ▸ hmem p.1 hp1)
      have hbne : normId p.2.course_id ≠ candidate_cid :=
        fun h => hcand (h ▸ hmem p.2 hp2)
      rw [if_neg (fun hcond => hane hcond.1), if_neg (fun hcond => hbne hcond.1)]
    · subst h0
      rw [if_neg (fun hcond => List.not_mem_nil _ hcond.2.2),
        if_neg (fun hcond => List.not_mem_nil _ hcond.2.2)]
  · rw [if_neg h0]
    apply List.filterMap_congr
    intro p hp
    by_cases hc1 : normId p.1.course_id = candidate_cid ∧
        normId p.2.course_id ∈ selected_ids
    · have hbne : normId p.2.course_id ≠ candidate_cid :=
        fun h => hcand (h ▸ hc1.2)
      rw [if_pos hc1, if_pos ⟨hc1.1, hbne, hc1.2⟩]
    · rw [if_neg hc1]
      by_cases hc2 : normId p.2.course_id = candidate_cid ∧
          normId p.1.course_id ∈ selected_ids
      · have hane : normId p.1.course_id ≠ candidate_cid :=
          fun h => hcand (h ▸ hc2.2)
        rw [if_pos hc2, if_neg (fun hcond => hane hcond.1),
          if_pos ⟨hc2.1, hane, hc2.2⟩]
      · rw [if_neg hc2, if_neg (fun hcond => hc1 ⟨hcond.1, hcond.2.2⟩),
          if_neg (fun hcond => hc2 ⟨hcond.1, hcond.2.2⟩)]

theorem conflicts_if_added_spec_witness :
    (("X" : String) ∉ (["Y"] : List String)) ∧
    (∀ cid, ∀ e ∈ wEbcXY cid, normId e.course_id = cid) ∧
    conflicts_if_added "X" ["Y"] wEbcXY =
      candidate_preview_spec "X" ["Y"] wEbcXY ∧
    conflicts_if_added "X" ["Y"] wEbcXY = [(wEvX, wEvY)] := by
  have hwf : ∀ cid, ∀ e ∈ wEbcXY cid, normId e.course_id = cid := by
    intro cid e he
    unfold wEbcXY at he
    by_cases h1 : cid = "X"
    · subst h1
      rw [if_pos rfl] at he
      simp only [List.mem_singleton] at he
      subst he
      decide
    · rw [if_neg h1] at he
      by_cases h2 : cid = "Y"
      · subst h2
        rw [if_pos rfl] at he
        simp only [List.mem_singleton] at he
        subst he
        decide
      · rw [if_neg h2] at he
        simp at he
  exact ⟨by decide, hwf,
    conflicts_if_added_spec "X" ["Y"] wEbcXY (by decide) hwf, by decide⟩

/-! ## Claim about the weekly timetable -/

theorem timetable_foldl_not_bucketed (ev : Event) (dd : PyDate)
    (hparse : parse_date (getStr ev.date) = some dd)
    (hnb : weekday_short dd ∉ bucketDays) :
    ∀ (L : List Event) (m : String → List Event), (∀ k, ev ∉ m k) →
      ∀ k, ev ∉ (L.foldl (fun m ev' =>
        match parse_date (getStr ev'.date) with
        | none => m
        | some dd' =>
          if weekday_short dd' ∈ bucketDays then
            fun k => if k = weekday_short dd' then m k ++ [ev'] else m k
          else m) m) k := by
  intro L
  induction L with
  | nil => intro m hm k; exact hm k
  | cons e L ih =>
    intro m hm k
    rw [List.foldl_cons]
    refine ih _ ?_ k
    intro k'
    cases hpe : parse_date (getStr e.date) with
    | none => exact hm k'
    | some de =>
      by_cases hwd : weekday_short de ∈ bucketDays
      · show ev ∉ (if weekday_short de ∈ bucketDays then
            fun k => if k = weekday_short de then m k ++ [e] else m k
          else m) k'
        rw [if_pos hwd]
        show ev ∉ if k' = weekday_short de then m k' ++ [e] else m k'
        by_cases hk : k' = weekday_short de
        · rw [if_pos hk]
          intro hin
          rcases List.mem_append.mp hin with hin | hin
          · exact hm k' hin
          · simp only [List.mem_singleton] at hin
            subst hin
            rw [hparse] at hpe
            cases hpe
            exact hnb hwd
        · rw [if_neg hk]
          exact hm k'
      · show ev ∉ (if weekday_short de ∈ bucketDays then
            fun k => if k = weekday_short de then m k ++ [e] else m k
          else m) k'
        rw [if_neg hwd]
        exact hm k'

/-- **C10.** An event whose date falls on a Sunday (Python
`date.weekday() = 6`, ISO weekday 7) belongs to the chosen ISO week's
event set, its short weekday name is `"Sun"`, which is not one of the six
Mon–Sat grid columns, and it therefore appears in no bucket of the
rendered weekly timetable: Sunday events are silently omitted from the
grid. -/
theorem timetable_sunday_omitted (events : List Event) (y w : Nat)
    (ev : Event) (dd : PyDate) (hev : ev ∈ events)
    (hparse : parse_date (getStr ev.date) = some dd)
    (hsun : pyWeekday dd = 6) (hweek : week_key dd = (y, w)) :
    ev ∈ weekEventsFor events y w ∧
    weekday_short dd = "Sun" ∧
    "Sun" ∉ bucketDays ∧
    ∀ day, ev ∉ timetableBuckets (weekEventsFor events y w) day := by
  have hname : weekday_short dd = "Sun" := by
    unfold weekday_short
    rw [hsun]
    rfl
  have hnb : weekday_short dd ∉ bucketDays := by
    rw [hname]
    decide
  refine ⟨?_, hname, by decide, ?_⟩
  · unfold weekEventsFor
    rw [List.mem_filter]
    refine ⟨hev, ?_⟩
    show (match parse_date (getStr ev.date) with
      | some dd => decide (week_key dd = (y, w))
      | none => false) = true
    rw [hparse]
    show decide (week_key dd = (y, w)) = true
    exact decide_eq_true hweek
  · intro day
    unfold timetableBuckets
    exact timetable_foldl_not_bucketed ev dd hparse hnb _ _
      (fun k => List.not_mem_nil ev) day

theorem timetable_sunday_omitted_witness :
    (wSunEv ∈ [wSunEv]) ∧
    parse_date (getStr wSunEv.date) = some ⟨2025, 10, 12⟩ ∧
    pyWeekday ⟨2025, 10, 12⟩ = 6 ∧
    week_key ⟨2025, 10, 12⟩ = (2025, 41) ∧
    (wSunEv ∈ weekEventsFor [wSunEv] 2025 41 ∧
     weekday_short ⟨2025, 10, 12⟩ = "Sun" ∧
     "Sun" ∉ bucketDays ∧
     ∀ day, wSunEv ∉ timetableBuckets (weekEventsFor [wSunEv] 2025 41) day) :=
  ⟨by decide, by decide, by decide, by decide,
   timetable_sunday_omitted [wSunEv] 2025 41 wSunEv ⟨2025, 10, 12⟩
     (by decide) (by decide) (by decide) (by decide)⟩

end MySchedule
